import Mathlib

/-!
Verification of the agora cost-language core, a shallow embedding of
`src/lang/src/language.rs`.

The file embeds the data model and operations of the source file:
the type-erased capture store (`Captures`), the two expression families
(`LinearExpression` for integer cost formulas, `Condition` for boolean
guards), the top-level query items, predicates and statements, and the
orchestration functions `Predicate.match_with_vars` and
`Statement.try_cost`.

Rust's `&mut Captures` parameters are modelled by explicit state passing:
a function that mutates the store returns the new store alongside its
result.  `Result<T, ()>` is modelled as `Except Unit T`; `BigInt` is
modelled as `Int` (both are exact arbitrary-precision integers).

The structural matchers `match_directives` / `match_selections` live in
`matching.rs`, which is not part of the sources; the development is
therefore parameterized over an arbitrary pair of matcher functions
(`Matchers`), and every theorem quantifies over all such pairs.  The
leaf evaluators of `expressions.rs` (`Const`, `Variable`,
`BinaryExpression` and the operator families) are likewise absent from
the sources and are modelled from the spec where needed.
-/

/-- Runtime type tags for the values a type-erased capture
(`Box<dyn Any>` in the source) may hold: the expression language and the
matcher use integers, booleans and strings. -/
inductive Ty where
  | int
  | bool
  | str
deriving DecidableEq

/-- The Lean type denoted by a runtime type tag. -/
@[reducible] def Ty.denote : Ty → Type
  | .int => Int
  | .bool => Bool
  | .str => String

/-- A type-erased capture value, the model of `Box<dyn Any>` restricted
to the value types the language stores. -/
inductive AnyValue where
  | int (v : Int)
  | bool (v : Bool)
  | str (v : String)
deriving DecidableEq

/-- The runtime type tag of a stored value. -/
def AnyValue.typeTag : AnyValue → Ty
  | .int _ => .int
  | .bool _ => .bool
  | .str _ => .str

/-- Model of `downcast_ref::<T>()`: succeeds exactly when the stored
concrete type is the requested one. -/
def AnyValue.downcast : AnyValue → (t : Ty) → Option t.denote
  | .int v, .int => some v
  | .bool v, .bool => some v
  | .str v, .str => some v
  | _, _ => none

/-- Model of `str::trim_start_matches('$')` on the character list of a
string: removes every leading `'$'` character. -/
def dropLeadingDollars : List Char → List Char
  | [] => []
  | c :: rest => if c = '$' then dropLeadingDollars rest else c :: rest

/-- Model of `name.trim_start_matches('$')` from `Captures::get`. -/
def trimStartDollars (s : String) : String :=
  ⟨dropLeadingDollars s.data⟩

/-- Lookup of a name in the underlying association list of the store,
the model of `HashMap::get`. -/
def lookupName (n : String) : List (String × AnyValue) → Option AnyValue
  | [] => none
  | (k, v) :: rest => if k = n then some v else lookupName n rest

/-- Removal of every entry bound to a key, used to model the
overwriting behaviour of `HashMap::insert`. -/
def eraseKey (n : String) : List (String × AnyValue) → List (String × AnyValue)
  | [] => []
  | (k, v) :: rest => if k = n then eraseKey n rest else (k, v) :: eraseKey n rest

/-- The capture store: a mapping from variable names to type-erased
values (`HashMap<String, Box<dyn Any>>` in the source), modelled as an
association list without duplicate keys in the image of `insert`. -/
structure Captures where
  values : List (String × AnyValue)
deriving DecidableEq

/-- `Captures::new()`: the empty store (`Default::default()`). -/
def Captures.new : Captures := ⟨[]⟩

/-- `Captures::insert`: records a binding under the name exactly as
given (no sigil stripping), overwriting any prior binding of that
name. -/
def Captures.insert (c : Captures) (name : String) (v : AnyValue) : Captures :=
  ⟨(name, v) :: eraseKey name c.values⟩

/-- `Captures::get::<T>`: strips every leading `'$'` from the requested
name, then returns `none` when the stripped name is unbound,
`some (.ok v)` when it is bound to a value of the requested type, and
`some (.error ())` when it is bound to a value of a different concrete
type. -/
def Captures.get (c : Captures) (t : Ty) (name : String) : Option (Except Unit t.denote) :=
  match lookupName (trimStartDollars name) c.values with
  | some v =>
    match v.downcast t with
    | some x => some (.ok x)
    | none => some (.error ())
  | none => none

/-- `Captures::clear`: removes all bindings. -/
def Captures.clear (_ : Captures) : Captures := ⟨[]⟩

lemma dropLeadingDollars_head_ne_dollar :
    ∀ l : List Char, (dropLeadingDollars l).head? ≠ some '$' := by
  intro l
  induction l with
  | nil => simp [dropLeadingDollars]
  | cons c rest ih =>
    by_cases h : c = '$'
    · simp [dropLeadingDollars, h, ih]
    · simp [dropLeadingDollars, h]

lemma trimStartDollars_dollar_append (x : String) :
    trimStartDollars ("$" ++ x) = trimStartDollars x := by
  obtain ⟨xd⟩ := x
  show (⟨dropLeadingDollars (String.data ⟨'$' :: xd⟩)⟩ : String) = _
  simp [trimStartDollars, dropLeadingDollars]

lemma dollar_append_ne_trimStartDollars (x s : String) :
    ("$" ++ x) ≠ trimStartDollars s := by
  intro h
  have hh : ("$" ++ x).data.head? = (trimStartDollars s).data.head? := by rw [h]
  obtain ⟨xd⟩ := x
  have hl : ("$" ++ String.mk xd).data.head? = some '$' := rfl
  rw [hl] at hh
  exact dropLeadingDollars_head_ne_dollar s.data hh.symm

lemma lookupName_eraseKey_ne (m n : String) (h : m ≠ n) :
    ∀ l, lookupName m (eraseKey n l) = lookupName m l := by
  intro l
  induction l with
  | nil => rfl
  | cons p rest ih =>
    obtain ⟨k, v⟩ := p
    by_cases hk : k = n
    · subst hk
      simp [eraseKey, lookupName, ih, Ne.symm h]
    · by_cases hm : k = m
      · subst hm
        simp [eraseKey, lookupName, hk]
      · simp [eraseKey, lookupName, hk, hm, ih]

/-- Modelled from the spec: the closed family of linear (arithmetic)
operators of `expressions.rs` (`AnyLinearOperator`), which is not among
the sources; the spec lists add, subtract and multiply. -/
inductive AnyLinearOperator where
  | add
  | sub
  | mul
deriving DecidableEq

/-- Modelled from the spec: exact arbitrary-precision application of a
linear operator (`BigInt` arithmetic; `Int` in Lean is mathematically
exact). -/
def AnyLinearOperator.apply : AnyLinearOperator → Int → Int → Int
  | .add, a, b => a + b
  | .sub, a, b => a - b
  | .mul, a, b => a * b

/-- Modelled from the spec: the closed family of comparison operators
of `expressions.rs` (`AnyComparison`): =, ≠, <, ≤, >, ≥. -/
inductive AnyComparison where
  | eq
  | ne
  | lt
  | le
  | gt
  | ge
deriving DecidableEq

/-- Modelled from the spec: application of a comparison operator to two
integers. -/
def AnyComparison.apply : AnyComparison → Int → Int → Bool
  | .eq, a, b => a = b
  | .ne, a, b => a ≠ b
  | .lt, a, b => a < b
  | .le, a, b => a ≤ b
  | .gt, a, b => a > b
  | .ge, a, b => a ≥ b

/-- Modelled from the spec: the closed family of boolean connectives of
`expressions.rs` (`AnyBooleanOp`): and, or. -/
inductive AnyBooleanOp where
  | and
  | or
deriving DecidableEq

/-- Modelled from the spec: application of a boolean connective. -/
def AnyBooleanOp.apply : AnyBooleanOp → Bool → Bool → Bool
  | .and, a, b => a && b
  | .or, a, b => a || b

/-- Modelled from the spec: the evaluation of a `Variable<T>` leaf from
`expressions.rs`: look the name up in the capture store; evaluation
fails if the name is absent or bound at a different concrete type. -/
def evalVariable (t : Ty) (name : String) (captures : Captures) : Except Unit t.denote :=
  match captures.get t name with
  | some (.ok v) => .ok v
  | some (.error _) => .error ()
  | none => .error ()

/-- `LinearExpression` from `language.rs`: `Const(Const<BigInt>)`,
`Variable(Variable<BigInt>)` (carrying the variable's name) or
`BinaryExpression(Box<BinaryExpression<AnyLinearOperator, _>>)`
(inlined as operator plus the two operands). -/
inductive LinearExpression where
  | const (value : Int)
  | var (name : String)
  | binaryExpression (op : AnyLinearOperator) (lhs rhs : LinearExpression)
deriving DecidableEq

/-- `LinearExpression::eval`: the dispatch lives in `language.rs`; the
leaf cases (`Const`, `Variable`) and the binary case (left operand
first, then the right, both must succeed, exact arithmetic) are
modelled from the spec because `expressions.rs` is not among the
sources. -/
def LinearExpression.eval : LinearExpression → Captures → Except Unit Int
  | .const v, _ => .ok v
  | .var n, captures => evalVariable .int n captures
  | .binaryExpression op l r, captures =>
    match l.eval captures with
    | .error e => .error e
    | .ok a =>
      match r.eval captures with
      | .error e => .error e
      | .ok b => .ok (op.apply a b)

/-- `Condition` from `language.rs`: a comparison of two linear
expressions, a boolean combination of two conditions, a boolean
variable, or a boolean constant. -/
inductive Condition where
  | comparison (op : AnyComparison) (lhs rhs : LinearExpression)
  | boolean (op : AnyBooleanOp) (lhs rhs : Condition)
  | var (name : String)
  | const (value : Bool)
deriving DecidableEq

/-- `Condition::eval`: the dispatch lives in `language.rs`; the leaf
and binary cases are modelled from the spec (both operands evaluated,
both must succeed). -/
def Condition.eval : Condition → Captures → Except Unit Bool
  | .comparison op l r, captures =>
    match l.eval captures with
    | .error e => .error e
    | .ok a =>
      match r.eval captures with
      | .error e => .error e
      | .ok b => .ok (op.apply a b)
  | .boolean op l r, captures =>
    match l.eval captures with
    | .error e => .error e
    | .ok a =>
      match r.eval captures with
      | .error e => .error e
      | .ok b => .ok (op.apply a b)
  | .var n, captures => evalVariable .bool n captures
  | .const v, _ => .ok v

/-- `WhenClause` from `language.rs`: wraps the guard condition. -/
structure WhenClause where
  condition : Condition
deriving DecidableEq

/-- `TopLevelQueryItem` from `language.rs`, parameterized over the
external `graphql_parser` types for directives (`D`) and selections
(`S`). -/
inductive TopLevelQueryItem (D S : Type) where
  | directive (d : D)
  | selection (s : S)
deriving DecidableEq

/-- The pair of structural matcher functions `match_directives` and
`match_selections` from `matching.rs`, which is not among the sources.
Each takes the pattern node, the query node, the fragment table `F`,
and the capture store, and returns the match verdict together with the
possibly-mutated store (or a data error).  The development is
parameterized over an arbitrary such pair, so every theorem below holds
for every possible matcher implementation. -/
structure Matchers (D S F : Type) where
  matchDirectives : D → D → F → Captures → Except Unit (Bool × Captures)
  matchSelections : S → S → F → Captures → Except Unit (Bool × Captures)

/-- `TopLevelQueryItem::match_with_vars`: dispatches on the kinds of
the pattern (`self`) and the query item (`other`); agreeing kinds
delegate to the corresponding matcher, mismatched kinds are an
immediate non-match that leaves the store untouched. -/
def TopLevelQueryItem.match_with_vars {D S F : Type} (m : Matchers D S F)
    (self other : TopLevelQueryItem D S) (fragments : F) (capture : Captures) :
    Except Unit (Bool × Captures) :=
  match self, other with
  | .directive s, .directive o => m.matchDirectives s o fragments capture
  | .selection s, .selection o => m.matchSelections s o fragments capture
  | _, _ => .ok (false, capture)

/-- `Predicate` from `language.rs`: a structural pattern plus an
optional guard. -/
structure Predicate (D S : Type) where
  graphql : TopLevelQueryItem D S
  when_clause : Option WhenClause

/-- `Predicate::match_with_vars`: clears the capture store, performs
the structural match, and then, when a `when` clause is present,
evaluates the guard condition against the captures produced by that
match; returns `true` only when both succeed. -/
def Predicate.match_with_vars {D S F : Type} (m : Matchers D S F)
    (p : Predicate D S) (item : TopLevelQueryItem D S) (fragments : F)
    (captures : Captures) : Except Unit (Bool × Captures) :=
  match p.graphql.match_with_vars m item fragments captures.clear with
  | .error e => .error e
  | .ok (false, c1) => .ok (false, c1)
  | .ok (true, c1) =>
    match p.when_clause with
    | none => .ok (true, c1)
    | some wc =>
      match wc.condition.eval c1 with
      | .error e => .error e
      | .ok false => .ok (false, c1)
      | .ok true => .ok (true, c1)

/-- `Statement` from `language.rs`: a predicate paired with a cost
expression. -/
structure Statement (D S : Type) where
  predicate : Predicate D S
  cost_expr : LinearExpression

/-- `Statement::try_cost`: if the predicate matches, evaluate the cost
expression against the captures bound by the match and return its
value; otherwise return `none` ("not applicable"); errors of the match
or of the evaluation propagate. -/
def Statement.try_cost {D S F : Type} (m : Matchers D S F) (stmt : Statement D S)
    (query : TopLevelQueryItem D S) (fragments : F) (captures : Captures) :
    Except Unit (Option Int × Captures) :=
  match stmt.predicate.match_with_vars m query fragments captures with
  | .error e => .error e
  | .ok (true, c1) =>
    match stmt.cost_expr.eval c1 with
    | .error e => .error e
    | .ok v => .ok (some v, c1)
  | .ok (false, c1) => .ok (none, c1)

/-- `SelectionSet` from the external `graphql_parser` crate: only its
`items` field is consumed by `language.rs`. -/
structure SelectionSet (S : Type) where
  items : List S

/-- `Query` from the external `graphql_parser` crate: only
`directives` and `selection_set` are consumed by `from_query` (the
remaining fields are discarded by the `..` pattern). -/
structure Query (D S : Type) where
  directives : List D
  selection_set : SelectionSet S

/-- `TopLevelQueryItem::from_query`: pushes each directive (wrapped as
a `Directive` item) and then each root-level selection (wrapped as a
`Selection` item) into the result vector, in order. -/
def TopLevelQueryItem.from_query {D S : Type} (query : Query D S) :
    List (TopLevelQueryItem D S) :=
  let result : List (TopLevelQueryItem D S) := []
  let result := query.directives.foldl
    (fun acc d => acc ++ [TopLevelQueryItem.directive d]) result
  query.selection_set.items.foldl
    (fun acc s => acc ++ [TopLevelQueryItem.selection s]) result

lemma foldl_push_eq_append_map {α β : Type} (f : α → β) :
    ∀ (l : List α) (init : List β),
      l.foldl (fun acc a => acc ++ [f a]) init = init ++ l.map f := by
  intro l
  induction l with
  | nil => simp
  | cons a rest ih => intro init; simp [ih]

lemma clear_eq_new (c : Captures) : c.clear = Captures.new := rfl

lemma trimStartDollars_double_dollar (x : String) :
    trimStartDollars ("$$" ++ x) = trimStartDollars x := by
  obtain ⟨xd⟩ := x
  show (⟨dropLeadingDollars (String.data ⟨'$' :: '$' :: xd⟩)⟩ : String) = _
  simp [trimStartDollars, dropLeadingDollars]

/-- C4: `Captures.get` returns `none` (absent) when no binding exists
under the sigil-stripped name, `some (.ok v)` when the binding's
concrete type is the requested one (downcast succeeds exactly on the
stored type tag), and the distinct outcome `some (.error ())` when a
binding exists at a different concrete type. -/
theorem captures_get_trichotomy (c : Captures) (t : Ty) (n : String) :
    (lookupName (trimStartDollars n) c.values = none → c.get t n = none) ∧
    (∀ v : AnyValue, lookupName (trimStartDollars n) c.values = some v →
      (((v.downcast t).isSome ↔ v.typeTag = t) ∧
       (∀ x, v.downcast t = some x → c.get t n = some (.ok x)) ∧
       (v.downcast t = none → c.get t n = some (.error ())))) := by
  refine ⟨fun h => by simp [Captures.get, h], fun v hv => ⟨?_, ?_, ?_⟩⟩
  · cases v <;> cases t <;> simp [AnyValue.downcast, AnyValue.typeTag]
  · intro x hx
    simp [Captures.get, hv, hx]
  · intro hx
    simp [Captures.get, hv, hx]

/-- C4 witness: in a store binding `n` to the integer 3, `get` at type
int returns the stored value. -/
theorem captures_get_trichotomy_witness :
    lookupName (trimStartDollars "n") (Captures.new.insert "n" (.int 3)).values =
      some (.int 3) ∧
    (AnyValue.int 3).downcast .int = some 3 ∧
    (Captures.new.insert "n" (.int 3)).get .int "n" = some (.ok 3) :=
  ⟨rfl, rfl,
    ((captures_get_trichotomy (Captures.new.insert "n" (.int 3)) .int "n").2
      (.int 3) rfl).2.1 3 rfl⟩

/-- C5: for a base name that does not begin with the `$` sigil,
retrieval through `get` with a leading `$` prepended finds the same
binding: the sigil is stripped before lookup. -/
theorem get_strips_leading_sigil (c : Captures) (t : Ty) (x : String)
    (_hx : x.data.head? ≠ some '$') :
    c.get t ("$" ++ x) = c.get t x := by
  simp [Captures.get, trimStartDollars_dollar_append]

/-- C5 witness: `$limit` and `limit` resolve to the same binding. -/
theorem get_strips_leading_sigil_witness :
    ("limit" : String).data.head? ≠ some '$' ∧
    (Captures.new.insert "limit" (.int 5)).get .int "$limit" =
      (Captures.new.insert "limit" (.int 5)).get .int "limit" :=
  ⟨by decide,
    get_strips_leading_sigil (Captures.new.insert "limit" (.int 5)) .int "limit"
      (by decide)⟩

/-- C9: a second `insert` under the same name overwrites the first —
the map-level lookup of that name observes the second value — and
bindings under every other name are unchanged. -/
theorem insert_overwrites (c : Captures) (n : String) (v1 v2 : AnyValue) :
    lookupName n ((c.insert n v1).insert n v2).values = some v2 ∧
    (∀ m, m ≠ n →
      lookupName m ((c.insert n v1).insert n v2).values = lookupName m c.values) := by
  constructor
  · simp [Captures.insert, lookupName]
  · intro m hm
    simp [Captures.insert, lookupName, Ne.symm hm, lookupName_eraseKey_ne m n hm]

/-- C9 witness: inserting 1 then 2 under `n` leaves `n` bound to 2 and
the (absent) binding of `m` unchanged. -/
theorem insert_overwrites_witness :
    ("m" : String) ≠ "n" ∧
    lookupName "n" ((Captures.new.insert "n" (.int 1)).insert "n" (.int 2)).values =
      some (.int 2) ∧
    lookupName "m" ((Captures.new.insert "n" (.int 1)).insert "n" (.int 2)).values =
      lookupName "m" Captures.new.values :=
  ⟨by decide,
    (insert_overwrites Captures.new "n" (.int 1) (.int 2)).1,
    (insert_overwrites Captures.new "n" (.int 1) (.int 2)).2 "m" (by decide)⟩

/-- C10: `insert` stores keys verbatim while `get` strips every leading
`$`: a binding inserted under a `$`-prefixed key is unreachable through
`get` (both with and without the sigil), and a doubly-sigiled name
resolves to the same binding as the bare name in every store. -/
theorem insert_get_sigil_asymmetry (x : String) (t : Ty) (v : AnyValue) :
    (Captures.new.insert ("$" ++ x) v).get t ("$" ++ x) = none ∧
    (Captures.new.insert ("$" ++ x) v).get t x = none ∧
    (∀ c : Captures, c.get t ("$$" ++ x) = c.get t x) := by
  refine ⟨?_, ?_, fun c => ?_⟩
  · simp [Captures.get, Captures.insert, Captures.new, eraseKey, lookupName,
      dollar_append_ne_trimStartDollars]
  · simp [Captures.get, Captures.insert, Captures.new, eraseKey, lookupName,
      dollar_append_ne_trimStartDollars]
  · simp [Captures.get, trimStartDollars_double_dollar]

/-- C8: `from_query` is exactly the query's directives (wrapped as
`Directive` items, in order) followed by the items of its outermost
selection set (wrapped as `Selection` items, in order). -/
theorem from_query_order {D S : Type} (q : Query D S) :
    TopLevelQueryItem.from_query q =
      q.directives.map TopLevelQueryItem.directive ++
        q.selection_set.items.map TopLevelQueryItem.selection := by
  simp [TopLevelQueryItem.from_query, foldl_push_eq_append_map]

/-- C3: when the pattern's kind and the query item's kind differ, the
top-level match is an `Ok(false)` non-match (not an error) and the
capture store is returned untouched, for every matcher implementation. -/
theorem kind_mismatch_no_match {D S F : Type} (m : Matchers D S F)
    (d : D) (s : S) (f : F) (c : Captures) :
    TopLevelQueryItem.match_with_vars m (.directive d) (.selection s) f c =
      .ok (false, c) ∧
    TopLevelQueryItem.match_with_vars m (.selection s) (.directive d) f c =
      .ok (false, c) :=
  ⟨rfl, rfl⟩

/-- C6: the binary case of `LinearExpression.eval` fails when the left
operand fails, fails when the right operand fails, and otherwise
applies the operator; the arithmetic is exact arbitrary-precision
integer arithmetic (mathematical `Int` addition, subtraction and
multiplication, with no overflow or truncation at any magnitude). -/
theorem binary_linear_eval_exact (op : AnyLinearOperator)
    (l r : LinearExpression) (c : Captures) :
    ((l.eval c = .error () →
        (LinearExpression.binaryExpression op l r).eval c = .error ()) ∧
     (∀ a, l.eval c = .ok a → r.eval c = .error () →
        (LinearExpression.binaryExpression op l r).eval c = .error ()) ∧
     (∀ a b, l.eval c = .ok a → r.eval c = .ok b →
        (LinearExpression.binaryExpression op l r).eval c = .ok (op.apply a b))) ∧
    (∀ a b : Int,
      AnyLinearOperator.add.apply a b = a + b ∧
      AnyLinearOperator.sub.apply a b = a - b ∧
      AnyLinearOperator.mul.apply a b = a * b) := by
  refine ⟨⟨?_, ?_, ?_⟩, fun a b => ⟨rfl, rfl, rfl⟩⟩
  · intro h
    simp [LinearExpression.eval, h]
  · intro a h hr
    simp [LinearExpression.eval, h, hr]
  · intro a b h hr
    simp [LinearExpression.eval, h, hr]

/-- C6 witness: `2 * 3` evaluates exactly to `6`, and a product of
large operands is exact: `(10^20) * (10^20) = 10^40`. -/
theorem binary_linear_eval_exact_witness :
    LinearExpression.eval (.const 2) Captures.new = .ok 2 ∧
    LinearExpression.eval (.const 3) Captures.new = .ok 3 ∧
    LinearExpression.eval (.binaryExpression .mul (.const 2) (.const 3))
      Captures.new = .ok 6 ∧
    LinearExpression.eval
      (.binaryExpression .mul (.const 100000000000000000000)
        (.const 100000000000000000000)) Captures.new =
      .ok 10000000000000000000000000000000000000000 :=
  ⟨rfl, rfl,
    (binary_linear_eval_exact .mul (.const 2) (.const 3) Captures.new).1.2.2
      2 3 rfl rfl,
    (binary_linear_eval_exact .mul (.const 100000000000000000000)
        (.const 100000000000000000000) Captures.new).1.2.2
      100000000000000000000 100000000000000000000 rfl rfl⟩

/-- Matcher pair used as a concrete instantiation in witnesses: the
directive matcher succeeds and binds `n` to 3, the selection matcher
reports a non-match. -/
def sampleMatchers : Matchers Unit Unit Unit where
  matchDirectives := fun _ _ _ c => .ok (true, c.insert "n" (.int 3))
  matchSelections := fun _ _ _ c => .ok (false, c)

/-- Statement used as a concrete instantiation in witnesses: an
unguarded directive pattern whose cost expression is the capture `n`. -/
def sampleStatement : Statement Unit Unit :=
  ⟨⟨.directive (), none⟩, .var "n"⟩

/-- C1: `try_cost` returns `Ok(None)` when the predicate match returns
`Ok(false)` — for every cost expression, so the cost expression is
never consulted —, returns `Ok(Some v)` with `v` the cost expression's
value over the captures bound by a successful match, and propagates an
error of either the match or the cost evaluation. -/
theorem try_cost_characterization {D S F : Type} (m : Matchers D S F)
    (stmt : Statement D S) (q : TopLevelQueryItem D S) (f : F) (c : Captures) :
    (∀ c1, Predicate.match_with_vars m stmt.predicate q f c = .ok (false, c1) →
      ∀ e : LinearExpression,
        Statement.try_cost m ⟨stmt.predicate, e⟩ q f c = .ok (none, c1)) ∧
    (∀ c1 v, Predicate.match_with_vars m stmt.predicate q f c = .ok (true, c1) →
      stmt.cost_expr.eval c1 = .ok v →
      Statement.try_cost m stmt q f c = .ok (some v, c1)) ∧
    (Predicate.match_with_vars m stmt.predicate q f c = .error () →
      Statement.try_cost m stmt q f c = .error ()) ∧
    (∀ c1, Predicate.match_with_vars m stmt.predicate q f c = .ok (true, c1) →
      stmt.cost_expr.eval c1 = .error () →
      Statement.try_cost m stmt q f c = .error ()) := by
  refine ⟨?_, ?_, ?_, ?_⟩
  · intro c1 h e
    simp [Statement.try_cost, h]
  · intro c1 v h hv
    simp [Statement.try_cost, h, hv]
  · intro h
    simp [Statement.try_cost, h]
  · intro c1 h hv
    simp [Statement.try_cost, h, hv]

/-- C1 witness: with the sample matchers the predicate matches binding
`n` to 3, and `try_cost` returns that capture's value. -/
theorem try_cost_characterization_witness :
    Predicate.match_with_vars sampleMatchers sampleStatement.predicate
        (.directive ()) () Captures.new =
      .ok (true, Captures.new.insert "n" (.int 3)) ∧
    sampleStatement.cost_expr.eval (Captures.new.insert "n" (.int 3)) = .ok 3 ∧
    Statement.try_cost sampleMatchers sampleStatement (.directive ()) ()
        Captures.new = .ok (some 3, Captures.new.insert "n" (.int 3)) :=
  ⟨rfl, rfl,
    (try_cost_characterization sampleMatchers sampleStatement (.directive ()) ()
        Captures.new).2.1 (Captures.new.insert "n" (.int 3)) 3 rfl rfl⟩

/-- C2: `Predicate.match_with_vars` first clears the store (its result
is independent of the store's prior contents), returns `Ok(false)` when
the structural match over the cleared store says `Ok(false)` or the
guard evaluates to `Ok(false)`, returns `Ok(true)` when the structural
match succeeds and the guard (when present) evaluates to `Ok(true)`,
and returns `Ok(true)` only under those conditions. -/
theorem predicate_match_clear_and_guard {D S F : Type} (m : Matchers D S F)
    (p : Predicate D S) (i : TopLevelQueryItem D S) (f : F) :
    (∀ c c' : Captures,
      Predicate.match_with_vars m p i f c = Predicate.match_with_vars m p i f c') ∧
    (∀ (c c1 : Captures),
      TopLevelQueryItem.match_with_vars m p.graphql i f Captures.new =
        .ok (false, c1) →
      Predicate.match_with_vars m p i f c = .ok (false, c1)) ∧
    (∀ (c c1 : Captures),
      p.when_clause = none →
      TopLevelQueryItem.match_with_vars m p.graphql i f Captures.new =
        .ok (true, c1) →
      Predicate.match_with_vars m p i f c = .ok (true, c1)) ∧
    (∀ (c c1 : Captures) (wc : WhenClause),
      p.when_clause = some wc →
      TopLevelQueryItem.match_with_vars m p.graphql i f Captures.new =
        .ok (true, c1) →
      wc.condition.eval c1 = .ok true →
      Predicate.match_with_vars m p i f c = .ok (true, c1)) ∧
    (∀ (c c1 : Captures) (wc : WhenClause),
      p.when_clause = some wc →
      TopLevelQueryItem.match_with_vars m p.graphql i f Captures.new =
        .ok (true, c1) →
      wc.condition.eval c1 = .ok false →
      Predicate.match_with_vars m p i f c = .ok (false, c1)) ∧
    (∀ (c c1 : Captures),
      Predicate.match_with_vars m p i f c = .ok (true, c1) →
      TopLevelQueryItem.match_with_vars m p.graphql i f Captures.new =
        .ok (true, c1) ∧
      ∀ wc : WhenClause, p.when_clause = some wc →
        wc.condition.eval c1 = .ok true) := by
  refine ⟨fun c c' => rfl, ?_, ?_, ?_, ?_, ?_⟩
  · intro c c1 h
    simp [Predicate.match_with_vars, clear_eq_new, h]
  · intro c c1 hw h
    simp [Predicate.match_with_vars, clear_eq_new, h, hw]
  · intro c c1 wc hw h hg
    simp [Predicate.match_with_vars, clear_eq_new, h, hw, hg]
  · intro c c1 wc hw h hg
    simp [Predicate.match_with_vars, clear_eq_new, h, hw, hg]
  · intro c c1 h
    have hun : Predicate.match_with_vars m p i f c =
        (match TopLevelQueryItem.match_with_vars m p.graphql i f Captures.new with
         | .error e => .error e
         | .ok (false, c2) => .ok (false, c2)
         | .ok (true, c2) =>
           match p.when_clause with
           | none => .ok (true, c2)
           | some wc =>
             match wc.condition.eval c2 with
             | .error e => .error e
             | .ok false => .ok (false, c2)
             | .ok true => .ok (true, c2)) := rfl
    rw [hun] at h
    rcases hs : TopLevelQueryItem.match_with_vars m p.graphql i f Captures.new
      with e | ⟨b, c2⟩
    · rw [hs] at h
      have h1 : (Except.error e : Except Unit (Bool × Captures)) =
          .ok (true, c1) := h
      cases h1
    · cases b
      · rw [hs] at h
        have h1 : (Except.ok (false, c2) : Except Unit (Bool × Captures)) =
            .ok (true, c1) := h
        simp at h1
      · rw [hs] at h
        have h2 : (match p.when_clause with
            | none => (Except.ok (true, c2) : Except Unit (Bool × Captures))
            | some wc =>
              match wc.condition.eval c2 with
              | .error e => .error e
              | .ok false => .ok (false, c2)
              | .ok true => .ok (true, c2)) = .ok (true, c1) := h
        rcases hw : p.when_clause with _ | wc
        · rw [hw] at h2
          have h3 : (Except.ok (true, c2) : Except Unit (Bool × Captures)) =
              .ok (true, c1) := h2
          simp at h3
          subst h3
          exact ⟨rfl, fun wc2 hwc2 => by cases hwc2⟩
        · rw [hw] at h2
          have h3 : (match wc.condition.eval c2 with
              | .error e => (Except.error e : Except Unit (Bool × Captures))
              | .ok false => .ok (false, c2)
              | .ok true => .ok (true, c2)) = .ok (true, c1) := h2
          rcases he : wc.condition.eval c2 with e | bg
          · rw [he] at h3
            have h4 : (Except.error e : Except Unit (Bool × Captures)) =
                .ok (true, c1) := h3
            cases h4
          · cases bg
            · rw [he] at h3
              have h4 : (Except.ok (false, c2) : Except Unit (Bool × Captures)) =
                  .ok (true, c1) := h3
              simp at h4
            · rw [he] at h3
              have h4 : (Except.ok (true, c2) : Except Unit (Bool × Captures)) =
                  .ok (true, c1) := h3
              simp at h4
              subst h4
              refine ⟨rfl, fun wc2 hwc2 => ?_⟩
              injection hwc2 with hh
              subst hh
              exact he

/-- C2 witness: a guarded predicate whose structural match binds `n` to
3 and whose guard `n > 2` holds returns `Ok(true)` with those
bindings. -/
theorem predicate_match_clear_and_guard_witness :
    (Predicate.mk (D := Unit) (S := Unit) (.directive ())
        (some ⟨.comparison .gt (.var "n") (.const 2)⟩)).when_clause =
      some ⟨.comparison .gt (.var "n") (.const 2)⟩ ∧
    TopLevelQueryItem.match_with_vars sampleMatchers
        (TopLevelQueryItem.directive ()) (.directive ()) () Captures.new =
      .ok (true, Captures.new.insert "n" (.int 3)) ∧
    Condition.eval (.comparison .gt (.var "n") (.const 2))
        (Captures.new.insert "n" (.int 3)) = .ok true ∧
    Predicate.match_with_vars sampleMatchers
        (Predicate.mk (.directive ())
          (some ⟨.comparison .gt (.var "n") (.const 2)⟩))
        (.directive ()) () Captures.new =
      .ok (true, Captures.new.insert "n" (.int 3)) :=
  ⟨rfl, rfl, rfl,
    (predicate_match_clear_and_guard sampleMatchers
        (Predicate.mk (.directive ())
          (some ⟨.comparison .gt (.var "n") (.const 2)⟩))
        (.directive ()) ()).2.2.2.1
      Captures.new (Captures.new.insert "n" (.int 3))
      ⟨.comparison .gt (.var "n") (.const 2)⟩ rfl rfl rfl⟩

/-- C7: `try_cost` is deterministic in the (statement, item, fragments)
triple: because the predicate clears the store first, the prior
contents of the capture store are irrelevant, so repeated evaluations
return the same verdict, the same optional cost, and identical final
bindings. -/
theorem try_cost_deterministic {D S F : Type} (m : Matchers D S F)
    (stmt : Statement D S) (q : TopLevelQueryItem D S) (f : F)
    (c c' : Captures) :
    Statement.try_cost m stmt q f c = Statement.try_cost m stmt q f c' := rfl
